import Mathlib

/-!
Shallow embedding of the client-side logic of `script.js` (product picker
and AI routine chat). Pure data transformations are modelled as Lean
functions over `List Char` / `String`; the stateful parts (selection set,
persisted storage, chat history, rendered transcript) are modelled as an
explicit `AppState` record with a step function over operations. The DOM
itself is abstracted to the transcript list and the selected-panel view;
network calls are abstracted to an `Outcome` parameter plus the request
(message list) that would be POSTed.
-/

namespace RoutineBuilder

/-! ### Character/string helpers mirroring the JS string methods used -/

/-- JS `String.prototype.toLowerCase` (ASCII letters, as in `Char.toLower`). -/
def jsToLower (s : String) : String := ⟨s.data.map Char.toLower⟩

/-- Leading-whitespace strip, the first half of JS `trim`. -/
def trimLeftChars (l : List Char) : List Char := l.dropWhile Char.isWhitespace

/-- Trailing-whitespace strip, the second half of JS `trim`. -/
def trimRightChars (l : List Char) : List Char :=
  (l.reverse.dropWhile Char.isWhitespace).reverse

/-- Whitespace strip on both ends. -/
def trimChars (l : List Char) : List Char := trimRightChars (trimLeftChars l)

/-- JS `String.prototype.trim`. -/
def jsTrim (s : String) : String := ⟨trimChars s.data⟩

/-- `productSearchInput.value.toLowerCase().trim()` (script.js line 92). -/
def normalizeSearch (s : String) : String := jsTrim (jsToLower s)

/-- JS `String.prototype.includes needle` on `hay`, i.e. contiguous
substring test, as a boolean scan. -/
def substrB (needle : List Char) : List Char → Bool
  | [] => needle.isEmpty
  | c :: cs => needle.isPrefixOf (c :: cs) || substrB needle cs

/-- Escaping of one character inside a JSON string literal, as
`JSON.stringify` produces it for the characters that occur here. -/
def jsonEscapeChar (c : Char) : List Char :=
  if c = '"' then ['\\', '"']
  else if c = '\\' then ['\\', '\\']
  else if c = '\n' then ['\\', 'n']
  else if c = '\t' then ['\\', 't']
  else if c = '\r' then ['\\', 'r']
  else [c]

/-- Body of a JSON string literal for `s`. -/
def jsonEscape (s : String) : String := ⟨s.data.flatMap jsonEscapeChar⟩

/-- A quoted JSON string literal. -/
def jsonString (s : String) : String := "\"" ++ jsonEscape s ++ "\""

/-! ### Data model -/

/-- A record of `products.json` before `loadProducts` adds the id. -/
structure RawProduct where
  name : String
  brand : String
  category : String
  description : String
  image : String
deriving DecidableEq

/-- A catalog entry after `loadProducts` derived its id. -/
structure Product where
  id : String
  name : String
  brand : String
  category : String
  description : String
  image : String
deriving DecidableEq

/-- One entry of `chatHistory`: `{role, content}`. -/
structure ChatMessage where
  role : String
  content : String
deriving DecidableEq

/-- One rendered message in the chat window; `isLoading` marks the
placeholder div that carries the `loading-message` id. -/
structure TranscriptEntry where
  sender : String
  content : String
  isLoading : Bool
deriving DecidableEq

/-- The `{name, brand, category, description}` payload objects collected
by `generateRoutine`. -/
structure SelectedProductData where
  name : String
  brand : String
  category : String
  description : String
deriving DecidableEq

/-- The mutable globals of script.js: the loaded catalog, the selection
set (a JS `Set`, i.e. an insertion-ordered duplicate-free list), the
serialized localStorage value under key `selectedProducts`, the chat
history, and the rendered chat window. -/
structure AppState where
  productsData : List Product
  selectedProductIds : List String
  storage : String
  chatHistory : List ChatMessage
  transcript : List TranscriptEntry
deriving DecidableEq

/-! ### Catalog loading: derived identifier (script.js line 42) -/

/-- Is `c` in `[a-z0-9]`, the complement of the regex class `[^a-z0-9]`? -/
def isIdChar (c : Char) : Bool :=
  ('a' ≤ c && c ≤ 'z') || ('0' ≤ c && c ≤ '9')

/-- `replace(/[^a-z0-9]/g, '-')`: each single-character match of the
class is replaced by one hyphen. -/
def replaceNonAlnum (l : List Char) : List Char :=
  l.map (fun c => if isIdChar c then c else '-')

/-- `product.name.toLowerCase().replace(/[^a-z0-9]/g, '-')`. -/
def deriveId (name : String) : String := ⟨replaceNonAlnum (jsToLower name).data⟩

/-- `loadProducts`' normalization: spread the record and add the derived id. -/
def loadProducts (raw : List RawProduct) : List Product :=
  raw.map (fun p => ⟨deriveId p.name, p.name, p.brand, p.category, p.description, p.image⟩)

/-- Helper for the spec-words identifier: `inRun` records whether the
previous character was part of a non-alphanumeric run already emitted as
one hyphen. -/
def collapseAux (inRun : Bool) : List Char → List Char
  | [] => []
  | c :: cs =>
    if isIdChar c then c :: collapseAux false cs
    else if inRun then collapseAux true cs
    else '-' :: collapseAux true cs

/-- Modelled from the spec's words only (spec.md section 3: identifier is the
"lowercase name with non-alphanumeric characters collapsed to hyphens",
read as: a run of consecutive non-alphanumerics yields a single hyphen).
Kept solely to compare against the source-derived `deriveId`. -/
def collapseNonAlnum (l : List Char) : List Char := collapseAux false l

/-- The spec-words identifier: lowercase, runs of non-alphanumerics
collapsed to a single hyphen. -/
def specCollapsedId (name : String) : String := ⟨collapseNonAlnum (jsToLower name).data⟩

/-! ### Filter engine (script.js lines 81–114) -/

/-- The search predicate of `filterAndDisplayProducts`: case-insensitive
substring match on name, brand or description. -/
def productMatchesSearch (p : Product) (term : String) : Bool :=
  substrB term.data (jsToLower p.name).data ||
  substrB term.data (jsToLower p.brand).data ||
  substrB term.data (jsToLower p.description).data

/-- The two filter stages applied to an already-normalized search term. -/
def filterWithTerm (catalog : List Product) (selectedCategory term : String) :
    List Product :=
  let f1 := if selectedCategory = "" then catalog
            else catalog.filter (fun p => p.category == selectedCategory)
  if term = "" then f1 else f1.filter (fun p => productMatchesSearch p term)

/-- The pure core of `filterAndDisplayProducts`: category filter (exact
match, skipped for the falsy empty string) then search filter on the
lowercased-and-trimmed term. -/
def filterAndDisplayProducts (catalog : List Product) (selectedCategory searchRaw : String) :
    List Product :=
  filterWithTerm catalog selectedCategory (normalizeSearch searchRaw)

/-! ### Selection store (script.js lines 127–179) -/

/-- `JSON.stringify([...selectedProductIds])`. -/
def serializeIds (ids : List String) : String :=
  "[" ++ String.intercalate "," (ids.map jsonString) ++ "]"

/-- `toggleProductSelection`: JS `Set` delete keeps the remaining order;
`Set.add` of an absent element appends at the end of the insertion order.
The new set is serialized to storage. -/
def toggleProductSelection (productId : String) (s : AppState) : AppState :=
  let sel :=
    if productId ∈ s.selectedProductIds then s.selectedProductIds.erase productId
    else s.selectedProductIds ++ [productId]
  { s with selectedProductIds := sel, storage := serializeIds sel }

/-- `updateSelectedProductsUI`: the selected-items panel, rebuilt from
current membership joined against the catalog, silently skipping ids with
no catalog entry. -/
def updateSelectedProductsUI (s : AppState) : List Product :=
  s.selectedProductIds.filterMap (fun id => s.productsData.find? (fun p => p.id == id))

/-! ### Chat rendering (script.js lines 211–242) -/

/-- A character the regex class `[^\s<]` accepts inside a URL match. -/
def legalUrlChar (c : Char) : Bool := !c.isWhitespace && !(c == '<')

/-- The characters of `https://`. -/
def schemeHttps : List Char := "https://".data

/-- The characters of `http://`. -/
def schemeHttp : List Char := "http://".data

/-- One attempt of the regex `/https?:\/\/[^\s<]+/` anchored at the head
of `l`: on success, the greedy match and the remainder of the input. -/
def matchUrl (l : List Char) : Option (List Char × List Char) :=
  if schemeHttps.isPrefixOf l then
    if ((l.drop 8).takeWhile legalUrlChar).isEmpty then none
    else some (schemeHttps ++ (l.drop 8).takeWhile legalUrlChar,
               (l.drop 8).dropWhile legalUrlChar)
  else if schemeHttp.isPrefixOf l then
    if ((l.drop 7).takeWhile legalUrlChar).isEmpty then none
    else some (schemeHttp ++ (l.drop 7).takeWhile legalUrlChar,
               (l.drop 7).dropWhile legalUrlChar)
  else none

/-- The replacement text the JS callback produces for a URL match: note
the leading space before the anchor tag. -/
def anchorChars (url : List Char) : List Char :=
  (" <a href=\"").data ++ url ++ ("\" target=\"_blank\" class=\"citation\">[Source]</a>").data

/-- Fuelled scan for the global regex replacement; with fuel at least the
length of the input (the fuel only pays for one character or one match per
step) the zero-fuel branch is never reached. -/
def linkifyGo : Nat → List Char → List Char
  | 0, l => l
  | _ + 1, [] => []
  | n + 1, c :: cs =>
    match matchUrl (c :: cs) with
    | some (url, rest) => anchorChars url ++ linkifyGo n rest
    | none => c :: linkifyGo n cs

/-- `displayContent.replace(urlRegex, ...)`: the left-to-right scan of the
global regex, replacing each (maximal, leftmost) match and advancing one
character on failure. -/
def linkifyAux (l : List Char) : List Char := linkifyGo l.length l

/-- `content.replace(/\n/g, '<br>')`. -/
def newlineToBr (l : List Char) : List Char :=
  l.flatMap (fun c => if c = '\n' then "<br>".data else [c])

/-- The `displayContent` computed inside `appendMessageToChat`: newline
replacement, then the URL-to-citation rewriting. -/
def displayContent (content : String) : String :=
  ⟨linkifyAux (newlineToBr content.data)⟩

/-- `appendMessageToChat`: appends the rendered message at the bottom of
the chat window. -/
def appendMessageToChat (sender content : String) (isLoading : Bool)
    (transcript : List TranscriptEntry) : List TranscriptEntry :=
  transcript ++ [⟨sender, displayContent content, isLoading⟩]

/-- `removeLoadingMessage`: `getElementById` finds the first element
carrying the `loading-message` id, and it is removed. -/
def removeLoadingMessage (transcript : List TranscriptEntry) : List TranscriptEntry :=
  transcript.eraseP (fun e => e.isLoading)

/-! ### Chat session (script.js lines 22–26, 249–360) -/

/-- The system prompt literal (script.js line 22). -/
def SYSTEM_PROMPT : String :=
  "You are the L\x27Oréal AI Routine Advisor. Your task is to analyze the user\x27s selected products and generate a personalized daily AM/PM routine. The routine must be structured, step-by-step, and explain *why* each product is used at that time. Be encouraging, professional, concise, and do not include any links or external text unless specifically asked to search the web."

/-- The advisory shown when generating with an empty selection. -/
def advisoryText : String :=
  "Please select at least one product before generating a routine."

/-- The static error rendered when routine generation fails. -/
def genErrorText : String :=
  "Error generating routine. Please check your worker endpoint/API key."

/-- The static error rendered when a follow-up exchange fails. -/
def chatErrorText : String :=
  "Error continuing conversation. Please try again."

/-- `selectedProductsData` as collected by `generateRoutine`: each
selected id resolved against the catalog (first hit), missing ids
silently skipped. -/
def selectedProductsDataOf (s : AppState) : List SelectedProductData :=
  s.selectedProductIds.filterMap (fun id =>
    (s.productsData.find? (fun p => p.id == id)).map
      (fun p => ⟨p.name, p.brand, p.category, p.description⟩))

/-- `JSON.stringify` of one payload object (keys in insertion order). -/
def jsonOfPayload (p : SelectedProductData) : String :=
  "\x7b\"name\":" ++ jsonString p.name ++ ",\"brand\":" ++ jsonString p.brand ++
  ",\"category\":" ++ jsonString p.category ++ ",\"description\":" ++
  jsonString p.description ++ "\x7d"

/-- `JSON.stringify` of the payload array. -/
def jsonArrayOfPayload (l : List SelectedProductData) : String :=
  "[" ++ String.intercalate "," (l.map jsonOfPayload) ++ "]"

/-- The fixed prefix of the routine prompt (script.js line 273). -/
def routinePromptPrefix : String :=
  "Generate a comprehensive AM/PM routine tailored to my needs using *only* the following L\x27Oréal product data. Structure your response clearly with AM and PM sections. Product JSON: "

/-- The full `routinePrompt` user message content. -/
def routinePromptOf (s : AppState) : String :=
  routinePromptPrefix ++ jsonArrayOfPayload (selectedProductsDataOf s)

/-- Result of one `fetch` exchange with the worker endpoint: a 2xx reply
whose JSON body carries the `response` field, or any thrown failure
(transport error or non-ok status). -/
inductive Outcome where
  | success (reply : String)
  | failure
deriving DecidableEq

/-- The user-driven operations of the session. -/
inductive Op where
  | toggle (productId : String)
  | generate (o : Outcome)
  | followUp (raw : String) (o : Outcome)
deriving DecidableEq

/-- One event-handler run, returning the next state and the message list
POSTed to the worker (`none` when no request is made). `generateRoutine`
resets the history to its first element (`[chatHistory[0]]`, i.e.
`take 1` for a non-empty history) before appending the routine prompt;
a failed follow-up `pop`s the just-appended user message. -/
def stepR (s : AppState) : Op → AppState × Option (List ChatMessage)
  | Op.toggle id => (toggleProductSelection id s, none)
  | Op.generate o =>
    if s.selectedProductIds.length = 0 then
      ({ s with transcript := appendMessageToChat "AI Advisor" advisoryText false s.transcript },
       none)
    else
      let h2 := s.chatHistory.take 1 ++ [⟨"user", routinePromptOf s⟩]
      let t2 := appendMessageToChat "AI Advisor" "Generating your personalized routine..." true
        (appendMessageToChat "User" "Please generate a personalized routine for me." false
          s.transcript)
      match o with
      | Outcome.success reply =>
        ({ s with chatHistory := h2 ++ [⟨"assistant", reply⟩],
                  transcript := appendMessageToChat "AI Advisor" reply false
                    (removeLoadingMessage t2) },
         some h2)
      | Outcome.failure =>
        ({ s with chatHistory := h2,
                  transcript := appendMessageToChat "AI Advisor" genErrorText false
                    (removeLoadingMessage t2) },
         some h2)
  | Op.followUp raw o =>
    let m := jsTrim raw
    if m = "" then (s, none)
    else
      let h1 := s.chatHistory ++ [⟨"user", m⟩]
      let t2 := appendMessageToChat "AI Advisor" "Thinking..." true
        (appendMessageToChat "User" m false s.transcript)
      match o with
      | Outcome.success reply =>
        ({ s with chatHistory := h1 ++ [⟨"assistant", reply⟩],
                  transcript := appendMessageToChat "AI Advisor" reply false
                    (removeLoadingMessage t2) },
         some h1)
      | Outcome.failure =>
        ({ s with chatHistory := h1.dropLast,
                  transcript := appendMessageToChat "AI Advisor" chatErrorText false
                    (removeLoadingMessage t2) },
         some h1)

/-- The state transition alone. -/
def step (s : AppState) (op : Op) : AppState := (stepR s op).1

/-- The startup state: empty catalog before `loadProducts` resolves,
selection read from storage, chat seeded with the system message. -/
def initialAppState : AppState :=
  { productsData := []
    selectedProductIds := []
    storage := serializeIds []
    chatHistory := [⟨"system", SYSTEM_PROMPT⟩]
    transcript := [] }

/-- The history shape the spec's invariant asks for: non-empty with a
system message first. -/
def systemHeaded (h : List ChatMessage) : Prop :=
  ∃ c rest, h = ⟨"system", c⟩ :: rest

/-! ### Helper lemmas -/

theorem matchUrl_rest_lt {l u r : List Char} (h : matchUrl l = some (u, r)) :
    r.length < l.length := by
  unfold matchUrl at h
  split at h
  · split at h
    · exact absurd h (by simp)
    · rename_i hpre _
      have hlen : 8 ≤ l.length := by
        have := List.IsPrefix.length_le (List.isPrefixOf_iff_prefix.mp hpre)
        simpa using this
      have hr : r = (l.drop 8).dropWhile legalUrlChar := by
        simp only [Option.some.injEq, Prod.mk.injEq] at h
        exact h.2.symm
      calc r.length ≤ (l.drop 8).length := by
              rw [hr]; exact (List.dropWhile_suffix _).length_le
        _ = l.length - 8 := by simp
        _ < l.length := by omega
  · split at h
    · split at h
      · exact absurd h (by simp)
      · rename_i hpre _
        have hlen : 7 ≤ l.length := by
          have := List.IsPrefix.length_le (List.isPrefixOf_iff_prefix.mp hpre)
          simpa using this
        have hr : r = (l.drop 7).dropWhile legalUrlChar := by
          simp only [Option.some.injEq, Prod.mk.injEq] at h
          exact h.2.symm
        calc r.length ≤ (l.drop 7).length := by
                rw [hr]; exact (List.dropWhile_suffix _).length_le
          _ = l.length - 7 := by simp
          _ < l.length := by omega
    · exact absurd h (by simp)

theorem filterWithTerm_sound (catalog : List Product) (cat term : String) :
    (filterWithTerm catalog cat term).Sublist catalog
    ∧ (∀ p ∈ filterWithTerm catalog cat term,
        (cat ≠ "" → p.category = cat)
        ∧ (term ≠ "" → productMatchesSearch p term = true))
    ∧ (cat = "" → term = "" → filterWithTerm catalog cat term = catalog) := by
  unfold filterWithTerm
  dsimp only
  by_cases hc : cat = ""
  · by_cases ht : term = ""
    · rw [if_pos hc, if_pos ht]
      exact ⟨List.Sublist.refl _, fun p _ => ⟨fun h => absurd hc h, fun h => absurd ht h⟩,
        fun _ _ => rfl⟩
    · rw [if_pos hc, if_neg ht]
      refine ⟨List.filter_sublist _, fun p hp => ?_, fun _ h => absurd h ht⟩
      exact ⟨fun h => absurd hc h, fun _ => (List.mem_filter.mp hp).2⟩
  · by_cases ht : term = ""
    · rw [if_neg hc, if_pos ht]
      refine ⟨List.filter_sublist _, fun p hp => ?_, fun h _ => absurd h hc⟩
      have := (List.mem_filter.mp hp).2
      exact ⟨fun _ => by simpa using this, fun h => absurd ht h⟩
    · rw [if_neg hc, if_neg ht]
      refine ⟨(List.filter_sublist _).trans (List.filter_sublist _), fun p hp => ?_,
        fun h _ => absurd h hc⟩
      have h2 := (List.mem_filter.mp hp).2
      have h1 := (List.mem_filter.mp (List.mem_filter.mp hp).1).2
      exact ⟨fun _ => by simpa using h1, fun _ => h2⟩

/-- C3: the filter's result is a subset of the catalog in catalog order,
every kept element passes the category predicate (when a category is
selected) and the case-insensitive substring predicate on
name/brand/description (when the normalized search term is non-empty),
and empty filters are no-ops. -/
theorem c3_filter_sound (catalog : List Product) (cat raw : String) :
    (filterAndDisplayProducts catalog cat raw).Sublist catalog
    ∧ (∀ p ∈ filterAndDisplayProducts catalog cat raw,
        (cat ≠ "" → p.category = cat)
        ∧ (normalizeSearch raw ≠ "" →
            productMatchesSearch p (normalizeSearch raw) = true))
    ∧ (cat = "" → normalizeSearch raw = "" →
        filterAndDisplayProducts catalog cat raw = catalog) :=
  filterWithTerm_sound catalog cat (normalizeSearch raw)

/-- A one-product demo catalog for concrete instantiations. -/
def vitaminProduct : Product :=
  ⟨deriveId "Vitamin C Serum", "Vitamin C Serum", "X", "serum", "Brightening serum", "img.png"⟩

theorem c3_filter_sound_witness :
    (filterAndDisplayProducts [vitaminProduct] "serum" "  VitaMin ").Sublist [vitaminProduct]
    ∧ (∀ p ∈ filterAndDisplayProducts [vitaminProduct] "serum" "  VitaMin ",
        ("serum" ≠ "" → p.category = "serum")
        ∧ (normalizeSearch "  VitaMin " ≠ "" →
            productMatchesSearch p (normalizeSearch "  VitaMin ") = true))
    ∧ ("serum" = "" → normalizeSearch "  VitaMin " = "" →
        filterAndDisplayProducts [vitaminProduct] "serum" "  VitaMin " = [vitaminProduct]) :=
  c3_filter_sound [vitaminProduct] "serum" "  VitaMin "

theorem selected_ne_nil_length {s : AppState} (h : s.selectedProductIds ≠ []) :
    ¬ s.selectedProductIds.length = 0 := by
  simpa [List.length_eq_zero] using h

/-- C6: with an empty selection, triggering routine generation makes no
request, only appends the advisory to the transcript, and leaves every
other component of the state (history included) unchanged. -/
theorem c6_empty_selection_guard (s : AppState) (o : Outcome)
    (hsel : s.selectedProductIds = []) :
    stepR s (Op.generate o) =
      ({ s with transcript := appendMessageToChat "AI Advisor" advisoryText false s.transcript },
       none) := by
  unfold stepR
  rw [hsel]
  rfl

theorem c6_empty_selection_guard_witness :
    stepR initialAppState (Op.generate Outcome.failure) =
      ({ initialAppState with
          transcript := appendMessageToChat "AI Advisor" advisoryText false
            initialAppState.transcript },
       none) :=
  c6_empty_selection_guard initialAppState Outcome.failure rfl

/-- C7: with a non-empty selection and a history headed by the system
message, a successful generation leaves the history as exactly
[system, user(routine prompt), assistant(reply)], and the request POSTed
is exactly that history as of sending, [system, user(routine prompt)]. -/
theorem c7_generate_success (s : AppState) (c reply : String) (rest : List ChatMessage)
    (hsel : s.selectedProductIds ≠ [])
    (hhist : s.chatHistory = ⟨"system", c⟩ :: rest) :
    (stepR s (Op.generate (Outcome.success reply))).1.chatHistory
      = [⟨"system", c⟩, ⟨"user", routinePromptOf s⟩, ⟨"assistant", reply⟩]
    ∧ (stepR s (Op.generate (Outcome.success reply))).2
      = some [⟨"system", c⟩, ⟨"user", routinePromptOf s⟩] := by
  simp only [stepR]
  rw [if_neg (selected_ne_nil_length hsel), hhist]
  exact ⟨rfl, rfl⟩

/-- A state with one product selected, for concrete instantiation. -/
def oneSelectedState : AppState :=
  { productsData := [vitaminProduct]
    selectedProductIds := [vitaminProduct.id]
    storage := serializeIds [vitaminProduct.id]
    chatHistory := [⟨"system", SYSTEM_PROMPT⟩]
    transcript := [] }

theorem c7_generate_success_witness :
    (stepR oneSelectedState (Op.generate (Outcome.success "AM: serum. PM: serum."))).1.chatHistory
      = [⟨"system", SYSTEM_PROMPT⟩, ⟨"user", routinePromptOf oneSelectedState⟩,
         ⟨"assistant", "AM: serum. PM: serum."⟩]
    ∧ (stepR oneSelectedState (Op.generate (Outcome.success "AM: serum. PM: serum."))).2
      = some [⟨"system", SYSTEM_PROMPT⟩, ⟨"user", routinePromptOf oneSelectedState⟩] :=
  c7_generate_success oneSelectedState SYSTEM_PROMPT "AM: serum. PM: serum." []
    (by decide) rfl

/-- C10: the guard checks only that the id set is non-empty, so a
selection of stale ids (none resolving against the catalog) still sends a
request, whose user prompt embeds the empty payload array `[]`. -/
theorem c10_stale_ids_send_request (s : AppState) (o : Outcome)
    (hsel : s.selectedProductIds ≠ [])
    (hstale : ∀ id ∈ s.selectedProductIds,
        s.productsData.find? (fun p => p.id == id) = none) :
    (stepR s (Op.generate o)).2
      = some (s.chatHistory.take 1 ++ [⟨"user", routinePromptPrefix ++ "[]"⟩]) := by
  have hdata : selectedProductsDataOf s = [] := by
    unfold selectedProductsDataOf
    rw [List.filterMap_eq_nil_iff]
    intro id hid
    rw [hstale id hid]
    rfl
  have hprompt : routinePromptOf s = routinePromptPrefix ++ "[]" := by
    unfold routinePromptOf
    rw [hdata]
    rfl
  simp only [stepR]
  rw [if_neg (selected_ne_nil_length hsel), hprompt]
  cases o <;> rfl

/-- A state whose only selected id is absent from the catalog. -/
def staleSelectedState : AppState :=
  { productsData := [vitaminProduct]
    selectedProductIds := ["discontinued-cream"]
    storage := serializeIds ["discontinued-cream"]
    chatHistory := [⟨"system", SYSTEM_PROMPT⟩]
    transcript := [] }

theorem c10_stale_ids_send_request_witness :
    (stepR staleSelectedState (Op.generate Outcome.failure)).2
      = some (staleSelectedState.chatHistory.take 1
              ++ [⟨"user", routinePromptPrefix ++ "[]"⟩]) :=
  c10_stale_ids_send_request staleSelectedState Outcome.failure (by decide) (by decide)

theorem eraseP_append_of_not {α : Type} (p : α → Bool) (l1 l2 : List α)
    (h : ∀ e ∈ l1, p e = false) :
    (l1 ++ l2).eraseP p = l1 ++ l2.eraseP p := by
  induction l1 with
  | nil => simp
  | cons a t ih =>
    have ha : p a = false := h a (by simp)
    simp only [List.cons_append, List.eraseP_cons, ha, cond_false]
    rw [ih (fun e he => h e (by simp [he]))]

theorem removeLoadingMessage_append_following (t : List TranscriptEntry)
    (u : TranscriptEntry) (c : String) (hload : ∀ e ∈ t, e.isLoading = false)
    (hu : u.isLoading = false) (sender : String) :
    removeLoadingMessage ((t ++ [u]) ++ [⟨sender, c, true⟩]) = t ++ [u] := by
  unfold removeLoadingMessage
  rw [eraseP_append_of_not _ (t ++ [u]) _ (by
    intro e he
    rcases List.mem_append.mp he with h | h
    · exact hload e h
    · simpa using (by simpa using h) ▸ hu)]
  simp [List.eraseP_cons]

/-- C4: on endpoint failure, a follow-up rolls its just-appended user
message back out of the history (the history is exactly restored), while
routine generation retains its failed user message; in both flows the
loading placeholder is gone and the static error message is the last
rendered entry. -/
theorem c4_failure_rollback_asymmetry (s : AppState) (msg : String)
    (m : ChatMessage) (rest : List ChatMessage)
    (hmsg : ¬ jsTrim msg = "")
    (hload : ∀ e ∈ s.transcript, e.isLoading = false)
    (hhist : s.chatHistory = m :: rest)
    (hsel : s.selectedProductIds ≠ []) :
    (step s (Op.followUp msg Outcome.failure)).chatHistory = s.chatHistory
    ∧ (step s (Op.followUp msg Outcome.failure)).transcript
        = s.transcript
          ++ [⟨"User", displayContent (jsTrim msg), false⟩,
              ⟨"AI Advisor", displayContent chatErrorText, false⟩]
    ∧ (step s (Op.generate Outcome.failure)).chatHistory
        = [m, ⟨"user", routinePromptOf s⟩]
    ∧ (step s (Op.generate Outcome.failure)).transcript
        = s.transcript
          ++ [⟨"User", displayContent "Please generate a personalized routine for me.", false⟩,
              ⟨"AI Advisor", displayContent genErrorText, false⟩] := by
  have hfollow :
      step s (Op.followUp msg Outcome.failure)
        = { s with
            chatHistory := (s.chatHistory ++ [ChatMessage.mk "user" (jsTrim msg)]).dropLast,
            transcript := appendMessageToChat "AI Advisor" chatErrorText false
              (removeLoadingMessage
                (appendMessageToChat "AI Advisor" "Thinking..." true
                  (appendMessageToChat "User" (jsTrim msg) false s.transcript))) } := by
    simp only [step, stepR]
    rw [if_neg hmsg]
  have hgen :
      step s (Op.generate Outcome.failure)
        = { s with
            chatHistory := s.chatHistory.take 1 ++ [⟨"user", routinePromptOf s⟩],
            transcript := appendMessageToChat "AI Advisor" genErrorText false
              (removeLoadingMessage
                (appendMessageToChat "AI Advisor" "Generating your personalized routine..." true
                  (appendMessageToChat "User" "Please generate a personalized routine for me."
                    false s.transcript))) } := by
    simp only [step, stepR]
    rw [if_neg (selected_ne_nil_length hsel)]
  refine ⟨?_, ?_, ?_, ?_⟩
  · rw [hfollow]
    exact List.dropLast_concat
  · rw [hfollow]
    show appendMessageToChat "AI Advisor" chatErrorText false
      (removeLoadingMessage ((s.transcript ++ [⟨"User", displayContent (jsTrim msg), false⟩])
        ++ [⟨"AI Advisor", displayContent "Thinking...", true⟩])) = _
    rw [removeLoadingMessage_append_following s.transcript _ _ hload rfl]
    simp [appendMessageToChat]
  · rw [hgen, hhist]
    rfl
  · rw [hgen]
    show appendMessageToChat "AI Advisor" genErrorText false
      (removeLoadingMessage ((s.transcript
          ++ [⟨"User", displayContent "Please generate a personalized routine for me.", false⟩])
        ++ [⟨"AI Advisor", displayContent "Generating your personalized routine...", true⟩])) = _
    rw [removeLoadingMessage_append_following s.transcript _ _ hload rfl]
    simp [appendMessageToChat]

theorem c4_failure_rollback_asymmetry_witness :
    (step oneSelectedState (Op.followUp "What about SPF?" Outcome.failure)).chatHistory
        = oneSelectedState.chatHistory
    ∧ (step oneSelectedState (Op.followUp "What about SPF?" Outcome.failure)).transcript
        = oneSelectedState.transcript
          ++ [⟨"User", displayContent (jsTrim "What about SPF?"), false⟩,
              ⟨"AI Advisor", displayContent chatErrorText, false⟩]
    ∧ (step oneSelectedState (Op.generate Outcome.failure)).chatHistory
        = [⟨"system", SYSTEM_PROMPT⟩, ⟨"user", routinePromptOf oneSelectedState⟩]
    ∧ (step oneSelectedState (Op.generate Outcome.failure)).transcript
        = oneSelectedState.transcript
          ++ [⟨"User", displayContent "Please generate a personalized routine for me.", false⟩,
              ⟨"AI Advisor", displayContent genErrorText, false⟩] :=
  c4_failure_rollback_asymmetry oneSelectedState "What about SPF?"
    ⟨"system", SYSTEM_PROMPT⟩ [] (by decide) (by intro e he; cases he) rfl (by decide)

theorem systemHeaded_step (s : AppState) (op : Op) (h : systemHeaded s.chatHistory) :
    systemHeaded (step s op).chatHistory := by
  obtain ⟨c, rest, hh⟩ := h
  cases op with
  | toggle id => exact ⟨c, rest, by simp [step, stepR, toggleProductSelection, hh]⟩
  | generate o =>
    by_cases hsel : s.selectedProductIds.length = 0
    · exact ⟨c, rest, by simp [step, stepR, hsel, hh]⟩
    · cases o with
      | success reply =>
        exact ⟨c, [⟨"user", routinePromptOf s⟩, ⟨"assistant", reply⟩],
          by simp [step, stepR, hsel, hh]⟩
      | failure =>
        exact ⟨c, [⟨"user", routinePromptOf s⟩], by simp [step, stepR, hsel, hh]⟩
  | followUp raw o =>
    by_cases hm : jsTrim raw = ""
    · exact ⟨c, rest, by simp [step, stepR, hm, hh]⟩
    · cases o with
      | success reply =>
        exact ⟨c, rest ++ [⟨"user", jsTrim raw⟩, ⟨"assistant", reply⟩],
          by simp [step, stepR, hm, hh]⟩
      | failure =>
        refine ⟨c, rest, ?_⟩
        have : (step s (Op.followUp raw Outcome.failure)).chatHistory
            = (s.chatHistory ++ [ChatMessage.mk "user" (jsTrim raw)]).dropLast := by
          simp only [step, stepR]
          rw [if_neg hm]
        rw [this, List.dropLast_concat, hh]

/-- C2: over every sequence of operations (toggles, routine generations
and follow-ups, succeeding or failing), a history that starts as a
system-headed list stays non-empty with the system message first. -/
theorem c2_history_system_invariant (s0 : AppState) (h0 : systemHeaded s0.chatHistory)
    (ops : List Op) : systemHeaded ((ops.foldl step s0).chatHistory) := by
  induction ops generalizing s0 with
  | nil => exact h0
  | cons op t ih => exact ih _ (systemHeaded_step s0 op h0)

theorem c2_history_system_invariant_witness :
    systemHeaded (([Op.generate Outcome.failure,
                    Op.followUp "What about SPF?" (Outcome.success "Use SPF 50."),
                    Op.toggle "vitamin-c-serum",
                    Op.followUp "More?" Outcome.failure,
                    Op.generate (Outcome.success "AM: cleanse. PM: serum.")
                   ].foldl step oneSelectedState).chatHistory) :=
  c2_history_system_invariant oneSelectedState ⟨SYSTEM_PROMPT, [], rfl⟩ _

/-- A two-element selection in sync with its serialized storage, used to
exhibit the order shift of a double toggle. -/
def c1CexState : AppState :=
  { productsData := []
    selectedProductIds := ["a", "b"]
    storage := serializeIds ["a", "b"]
    chatHistory := []
    transcript := [] }

/-- C1 counterexample: toggling the already-selected id "a" twice in the
state whose insertion order is ["a", "b"] restores membership but leaves
the persisted serialized array as ["b", "a"], not the original
["a", "b"] — the claim's storage-restoration conjunct is false. -/
theorem c1_toggle_twice_counterexample :
    "a" ∈ (toggleProductSelection "a" (toggleProductSelection "a"
            c1CexState)).selectedProductIds
    ∧ (toggleProductSelection "a" (toggleProductSelection "a" c1CexState)).storage
        = serializeIds ["b", "a"]
    ∧ (toggleProductSelection "a" (toggleProductSelection "a" c1CexState)).storage
        ≠ c1CexState.storage := by decide

/-- C1 (amended): toggling the same id twice restores membership exactly
and restores the persisted array up to order (a permutation, kept in sync
with the set); when the id was not initially selected, set and storage
are restored verbatim. -/
theorem c1_toggle_twice_amended (s : AppState) (id : String)
    (hnd : s.selectedProductIds.Nodup)
    (hsync : s.storage = serializeIds s.selectedProductIds) :
    (∀ x, x ∈ (toggleProductSelection id (toggleProductSelection id s)).selectedProductIds
        ↔ x ∈ s.selectedProductIds)
    ∧ (toggleProductSelection id (toggleProductSelection id s)).selectedProductIds.Perm
        s.selectedProductIds
    ∧ (toggleProductSelection id (toggleProductSelection id s)).storage
        = serializeIds
            (toggleProductSelection id (toggleProductSelection id s)).selectedProductIds
    ∧ (id ∉ s.selectedProductIds → toggleProductSelection id (toggleProductSelection id s) = s) := by
  by_cases hid : id ∈ s.selectedProductIds
  · have h1 : toggleProductSelection id s
        = { s with selectedProductIds := s.selectedProductIds.erase id,
                   storage := serializeIds (s.selectedProductIds.erase id) } := by
      simp [toggleProductSelection, hid]
    have hnotmem : id ∉ s.selectedProductIds.erase id := by
      intro hmem
      exact absurd ((List.Nodup.mem_erase_iff hnd).mp hmem).1 (by simp)
    have h2 : toggleProductSelection id (toggleProductSelection id s)
        = { s with selectedProductIds := s.selectedProductIds.erase id ++ [id],
                   storage := serializeIds (s.selectedProductIds.erase id ++ [id]) } := by
      rw [h1]
      simp [toggleProductSelection, hnotmem]
    have hperm : (s.selectedProductIds.erase id ++ [id]).Perm s.selectedProductIds :=
      (List.perm_append_singleton _ _).trans (List.perm_cons_erase hid).symm
    rw [h2]
    exact ⟨fun x => hperm.mem_iff, hperm, rfl, fun hno => absurd hid hno⟩
  · have h1 : toggleProductSelection id s
        = { s with selectedProductIds := s.selectedProductIds ++ [id],
                   storage := serializeIds (s.selectedProductIds ++ [id]) } := by
      simp [toggleProductSelection, hid]
    have hmem2 : id ∈ s.selectedProductIds ++ [id] := by simp
    have herase : (s.selectedProductIds ++ [id]).erase id = s.selectedProductIds := by
      rw [List.erase_append_right _ hid, List.erase_cons_head]
      simp
    have h3 : toggleProductSelection id (toggleProductSelection id s) = s := by
      rw [h1]
      simp only [toggleProductSelection, hmem2, if_pos, herase]
      rw [← hsync]
    rw [h3]
    exact ⟨fun x => Iff.rfl, List.Perm.refl _, hsync, fun _ => rfl⟩

theorem c1_toggle_twice_amended_witness :
    (∀ x, x ∈ (toggleProductSelection "a" (toggleProductSelection "a"
          c1CexState)).selectedProductIds
        ↔ x ∈ c1CexState.selectedProductIds)
    ∧ (toggleProductSelection "a" (toggleProductSelection "a"
          c1CexState)).selectedProductIds.Perm c1CexState.selectedProductIds
    ∧ (toggleProductSelection "a" (toggleProductSelection "a" c1CexState)).storage
        = serializeIds
            (toggleProductSelection "a" (toggleProductSelection "a"
              c1CexState)).selectedProductIds
    ∧ ("a" ∉ c1CexState.selectedProductIds →
        toggleProductSelection "a" (toggleProductSelection "a" c1CexState) = c1CexState) :=
  c1_toggle_twice_amended c1CexState "a" (by decide) rfl

/-- C5 counterexample: the catalog loader derives id "a--b" for the name
"A  B" (one hyphen per non-alphanumeric character), while the claimed
run-collapsing rule would give "a-b". -/
theorem c5_derive_id_counterexample :
    (loadProducts [⟨"A  B", "X", "serum", "d", "img"⟩]).map Product.id = ["a--b"]
    ∧ specCollapsedId "A  B" = "a-b"
    ∧ deriveId "A  B" ≠ specCollapsedId "A  B" := by decide

/-- C5 (amended): the derived identifier is the lowercase name with each
non-alphanumeric character replaced by its own hyphen, so a run of k
consecutive non-alphanumerics yields exactly k hyphens. -/
theorem c5_derive_id_amended (pre run post : List Char)
    (h : ∀ c ∈ run, isIdChar c.toLower = false) :
    deriveId ⟨pre ++ run ++ post⟩
      = deriveId ⟨pre⟩ ++ String.mk (List.replicate run.length '-') ++ deriveId ⟨post⟩ := by
  apply String.ext
  show replaceNonAlnum ((pre ++ run ++ post).map Char.toLower)
      = replaceNonAlnum (pre.map Char.toLower) ++ List.replicate run.length '-'
        ++ replaceNonAlnum (post.map Char.toLower)
  unfold replaceNonAlnum
  simp only [List.map_append]
  congr 1
  congr 1
  have hmem : ∀ x ∈ (run.map Char.toLower).map
      (fun c => if isIdChar c then c else '-'), x = '-' := by
    intro x hx
    obtain ⟨c, hc, hcx⟩ := List.mem_map.mp hx
    obtain ⟨d, hd, hdc⟩ := List.mem_map.mp hc
    rw [← hcx, ← hdc, h d hd]
    rfl
  have := List.eq_replicate_of_mem hmem
  simpa using this

theorem c5_derive_id_amended_witness :
    (∀ c ∈ [' ', '.'], isIdChar c.toLower = false)
    ∧ deriveId ⟨"ab".data ++ [' ', '.'] ++ "cd".data⟩
        = deriveId ⟨"ab".data⟩ ++ String.mk (List.replicate ([' ', '.'].length) '-')
          ++ deriveId ⟨"cd".data⟩ :=
  ⟨by decide, c5_derive_id_amended "ab".data [' ', '.'] "cd".data (by decide)⟩

theorem toLower_of_whitespace {c : Char} (h : c.isWhitespace = true) : c.toLower = c := by
  simp only [Char.isWhitespace, Bool.or_eq_true, decide_eq_true_eq, or_assoc] at h
  rcases h with h | h | h | h <;> subst h <;> decide

theorem map_toLower_of_whitespace {w : List Char}
    (h : ∀ c ∈ w, c.isWhitespace = true) : w.map Char.toLower = w := by
  induction w with
  | nil => rfl
  | cons a t ih =>
    rw [List.map_cons, toLower_of_whitespace (h a (by simp)),
      ih (fun c hc => h c (by simp [hc]))]

theorem dropWhile_append_of_all {α : Type} {P : α → Bool} {a : List α} (x : List α)
    (h : ∀ c ∈ a, P c = true) : (a ++ x).dropWhile P = x.dropWhile P := by
  induction a with
  | nil => rfl
  | cons c t ih =>
    rw [List.cons_append, List.dropWhile_cons_of_pos (h c (by simp))]
    exact ih (fun d hd => h d (by simp [hd]))

theorem dropWhile_append_of_ne_nil {α : Type} {P : α → Bool} {x : List α} (b : List α)
    (h : x.dropWhile P ≠ []) : (x ++ b).dropWhile P = x.dropWhile P ++ b := by
  induction x with
  | nil => exact absurd rfl h
  | cons c t ih =>
    by_cases hc : P c = true
    · rw [List.cons_append, List.dropWhile_cons_of_pos hc,
        ih (by rwa [List.dropWhile_cons_of_pos hc] at h), List.dropWhile_cons_of_pos hc]
    · rw [List.cons_append, List.dropWhile_cons_of_neg (by simpa using hc),
        List.dropWhile_cons_of_neg (by simpa using hc), List.cons_append]

theorem trimRightChars_append_of_all {b : List Char} (x : List Char)
    (h : ∀ c ∈ b, c.isWhitespace = true) :
    trimRightChars (x ++ b) = trimRightChars x := by
  unfold trimRightChars
  rw [List.reverse_append, dropWhile_append_of_all _ (fun c hc => h c (by simpa using hc))]

theorem trimChars_sandwich {a b : List Char} (x : List Char)
    (ha : ∀ c ∈ a, c.isWhitespace = true) (hb : ∀ c ∈ b, c.isWhitespace = true) :
    trimChars (a ++ x ++ b) = trimChars x := by
  unfold trimChars trimLeftChars
  rw [List.append_assoc, dropWhile_append_of_all _ ha]
  by_cases hx : x.dropWhile Char.isWhitespace = []
  · have hxall : ∀ c ∈ x, c.isWhitespace = true := List.dropWhile_eq_nil_iff.mp hx
    rw [dropWhile_append_of_all _ hxall, hx,
      List.dropWhile_eq_nil_iff.mpr (fun c hc => hb c hc)]
  · rw [dropWhile_append_of_ne_nil _ hx, trimRightChars_append_of_all _ hb]

theorem normalizeSearch_sandwich (w1 w2 s : String)
    (h1 : ∀ c ∈ w1.data, c.isWhitespace = true)
    (h2 : ∀ c ∈ w2.data, c.isWhitespace = true) :
    normalizeSearch (w1 ++ s ++ w2) = normalizeSearch s := by
  unfold normalizeSearch jsTrim jsToLower
  apply congrArg String.mk
  show trimChars ((w1.data ++ s.data ++ w2.data).map Char.toLower) = _
  rw [List.map_append, List.map_append, map_toLower_of_whitespace h1,
    map_toLower_of_whitespace h2]
  exact trimChars_sandwich _ h1 h2

theorem normalizeSearch_of_whitespace (w : String)
    (h : ∀ c ∈ w.data, c.isWhitespace = true) :
    normalizeSearch w = normalizeSearch "" := by
  unfold normalizeSearch jsTrim jsToLower
  apply congrArg String.mk
  show trimChars (w.data.map Char.toLower) = trimChars ([].map Char.toLower)
  rw [map_toLower_of_whitespace h]
  unfold trimChars trimLeftChars
  rw [List.dropWhile_eq_nil_iff.mpr (fun c hc => h c hc)]
  rfl

/-- C9: a whitespace-only search box is a no-op exactly like an empty
one, and leading/trailing whitespace around a search term never changes
the filter's result, because the input is lowercased and trimmed before
matching. -/
theorem c9_whitespace_search_irrelevant (catalog : List Product) (cat : String) :
    (∀ w1 w2 s : String,
        (∀ c ∈ w1.data, c.isWhitespace = true) →
        (∀ c ∈ w2.data, c.isWhitespace = true) →
        filterAndDisplayProducts catalog cat (w1 ++ s ++ w2)
          = filterAndDisplayProducts catalog cat s)
    ∧ (∀ w : String, (∀ c ∈ w.data, c.isWhitespace = true) →
        filterAndDisplayProducts catalog cat w
          = filterAndDisplayProducts catalog cat "") := by
  constructor
  · intro w1 w2 s h1 h2
    unfold filterAndDisplayProducts
    rw [normalizeSearch_sandwich w1 w2 s h1 h2]
  · intro w h
    unfold filterAndDisplayProducts
    rw [normalizeSearch_of_whitespace w h]

theorem c9_whitespace_search_irrelevant_witness :
    (∀ w1 w2 s : String,
        (∀ c ∈ w1.data, c.isWhitespace = true) →
        (∀ c ∈ w2.data, c.isWhitespace = true) →
        filterAndDisplayProducts [vitaminProduct] "" (w1 ++ s ++ w2)
          = filterAndDisplayProducts [vitaminProduct] "" s)
    ∧ (∀ w : String, (∀ c ∈ w.data, c.isWhitespace = true) →
        filterAndDisplayProducts [vitaminProduct] "" w
          = filterAndDisplayProducts [vitaminProduct] "" "") :=
  c9_whitespace_search_irrelevant [vitaminProduct] ""

theorem scheme_https_all_legal : ∀ c ∈ schemeHttps, legalUrlChar c = true := by decide

theorem scheme_http_all_legal : ∀ c ∈ schemeHttp, legalUrlChar c = true := by decide

theorem isPrefixOf_append_cons {p : List Char} {b : Char} (hb : b ∉ p) :
    ∀ (xs ys : List Char), p.isPrefixOf (xs ++ b :: ys) = p.isPrefixOf xs := by
  induction p with
  | nil => intro xs ys; simp [List.isPrefixOf]
  | cons q qs ih =>
    intro xs ys
    cases xs with
    | nil =>
      have hqb : (q == b) = false := by
        simp only [beq_eq_false_iff_ne, ne_eq]
        intro he
        exact hb (by simp [he])
      simp [List.isPrefixOf, hqb]
    | cons x xt =>
      simp only [List.cons_append, List.isPrefixOf, List.append_eq]
      rw [ih (fun hm => hb (by simp [hm])) xt ys]

theorem takeWhile_append_cons_neg {α : Type} {P : α → Bool} {b : α} (hb : P b = false) :
    ∀ (u v : List α), (u ++ b :: v).takeWhile P = u.takeWhile P := by
  intro u v
  induction u with
  | nil => simp [List.takeWhile_cons, hb]
  | cons c t ih =>
    by_cases hc : P c = true
    · rw [List.cons_append, List.takeWhile_cons_of_pos hc, ih,
        List.takeWhile_cons_of_pos hc]
    · rw [List.cons_append, List.takeWhile_cons_of_neg (by simpa using hc),
        List.takeWhile_cons_of_neg (by simpa using hc)]

theorem dropWhile_append_cons_neg {α : Type} {P : α → Bool} {b : α} (hb : P b = false) :
    ∀ (u v : List α), (u ++ b :: v).dropWhile P = u.dropWhile P ++ b :: v := by
  intro u v
  induction u with
  | nil => simp [List.dropWhile_cons, hb]
  | cons c t ih =>
    by_cases hc : P c = true
    · rw [List.cons_append, List.dropWhile_cons_of_pos hc, ih,
        List.dropWhile_cons_of_pos hc]
    · rw [List.cons_append, List.dropWhile_cons_of_neg (by simpa using hc),
        List.dropWhile_cons_of_neg (by simpa using hc), List.cons_append]

theorem matchUrl_append {xs ys : List Char} {b : Char} (hb : legalUrlChar b = false) :
    matchUrl (xs ++ b :: ys)
      = (matchUrl xs).map (fun p => (p.1, p.2 ++ b :: ys)) := by
  have hbs : b ∉ schemeHttps := fun hmem => by
    rw [scheme_https_all_legal b hmem] at hb
    cases hb
  have hbh : b ∉ schemeHttp := fun hmem => by
    rw [scheme_http_all_legal b hmem] at hb
    cases hb
  unfold matchUrl
  rw [isPrefixOf_append_cons hbs xs ys, isPrefixOf_append_cons hbh xs ys]
  by_cases h1 : schemeHttps.isPrefixOf xs = true
  · rw [if_pos h1, if_pos h1]
    have hlen : 8 ≤ xs.length := by
      have := (List.isPrefixOf_iff_prefix.mp h1).length_le
      simpa using this
    rw [List.drop_append_of_le_length hlen, takeWhile_append_cons_neg hb,
      dropWhile_append_cons_neg hb]
    by_cases h2 : ((xs.drop 8).takeWhile legalUrlChar).isEmpty = true
    · rw [if_pos h2, if_pos h2]
      rfl
    · rw [if_neg h2, if_neg h2]
      rfl
  · rw [if_neg h1, if_neg h1]
    by_cases h3 : schemeHttp.isPrefixOf xs = true
    · rw [if_pos h3, if_pos h3]
      have hlen : 7 ≤ xs.length := by
        have := (List.isPrefixOf_iff_prefix.mp h3).length_le
        simpa using this
      rw [List.drop_append_of_le_length hlen, takeWhile_append_cons_neg hb,
        dropWhile_append_cons_neg hb]
      by_cases h4 : ((xs.drop 7).takeWhile legalUrlChar).isEmpty = true
      · rw [if_pos h4, if_pos h4]
        rfl
      · rw [if_neg h4, if_neg h4]
        rfl
    · rw [if_neg h3, if_neg h3]
      rfl

theorem linkifyGo_nil (n : Nat) : linkifyGo n [] = [] := by
  cases n <;> rfl

theorem linkifyGo_fuel :
    ∀ (n m : Nat) (l : List Char), l.length ≤ n → l.length ≤ m →
      linkifyGo n l = linkifyGo m l := by
  intro n
  induction n with
  | zero =>
    intro m l hn _
    rw [List.length_eq_zero.mp (Nat.le_zero.mp hn), linkifyGo_nil, linkifyGo_nil]
  | succ n ih =>
    intro m l hn hm
    cases l with
    | nil => rw [linkifyGo_nil, linkifyGo_nil]
    | cons c cs =>
      cases m with
      | zero => simp at hm
      | succ m' =>
        simp only [linkifyGo]
        cases hmu : matchUrl (c :: cs) with
        | none =>
          have hcs : cs.length ≤ n := by
            simpa using Nat.le_of_succ_le_succ hn
          have hcs' : cs.length ≤ m' := by
            simpa using Nat.le_of_succ_le_succ hm
          dsimp only
          rw [ih m' cs hcs hcs']
        | some p =>
          obtain ⟨u, r⟩ := p
          have hr : r.length < cs.length + 1 := by
            simpa using matchUrl_rest_lt hmu
          dsimp only
          rw [ih m' r (by simp at hn; omega) (by simp at hm; omega)]

theorem linkifyAux_cons_some {c : Char} {cs u r : List Char}
    (h : matchUrl (c :: cs) = some (u, r)) :
    linkifyAux (c :: cs) = anchorChars u ++ linkifyAux r := by
  unfold linkifyAux
  show linkifyGo (cs.length + 1) (c :: cs) = _
  simp only [linkifyGo]
  rw [h]
  dsimp only
  have hr : r.length < cs.length + 1 := by
    simpa using matchUrl_rest_lt h
  rw [linkifyGo_fuel cs.length r.length r (by omega) (Nat.le_refl _)]

theorem linkifyAux_cons_none {c : Char} {cs : List Char}
    (h : matchUrl (c :: cs) = none) :
    linkifyAux (c :: cs) = c :: linkifyAux cs := by
  unfold linkifyAux
  show linkifyGo (cs.length + 1) (c :: cs) = _
  simp only [linkifyGo]
  rw [h]

theorem matchUrl_head_not_h {b : Char} (hb : b ≠ 'h') (ys : List Char) :
    matchUrl (b :: ys) = none := by
  have hhb : ('h' == b) = false := by
    simp only [beq_eq_false_iff_ne, ne_eq]
    exact fun h => hb h.symm
  have h1 : schemeHttps.isPrefixOf (b :: ys) = false := by
    show ('h' :: "ttps://".data).isPrefixOf (b :: ys) = false
    simp only [List.isPrefixOf, hhb, Bool.false_and]
  have h2 : schemeHttp.isPrefixOf (b :: ys) = false := by
    show ('h' :: "ttp://".data).isPrefixOf (b :: ys) = false
    simp only [List.isPrefixOf, hhb, Bool.false_and]
  unfold matchUrl
  rw [h1, h2]
  rfl

theorem illegal_ne_h {b : Char} (hb : legalUrlChar b = false) : b ≠ 'h' := by
  intro he
  rw [he] at hb
  exact absurd hb (by decide)

theorem linkify_split_base {b : Char} (hb : legalUrlChar b = false) (ys : List Char) :
    linkifyAux (b :: ys) = linkifyAux [b] ++ linkifyAux ys := by
  rw [linkifyAux_cons_none (matchUrl_head_not_h (illegal_ne_h hb) ys),
    linkifyAux_cons_none (matchUrl_head_not_h (illegal_ne_h hb) [])]
  rfl

theorem linkify_split {b : Char} (hb : legalUrlChar b = false) :
    ∀ (n : Nat) (xs : List Char), xs.length ≤ n → ∀ (ys : List Char),
      linkifyAux (xs ++ b :: ys) = linkifyAux (xs ++ [b]) ++ linkifyAux ys := by
  intro n
  induction n with
  | zero =>
    intro xs hxs ys
    rw [List.length_eq_zero.mp (Nat.le_zero.mp hxs)]
    exact linkify_split_base hb ys
  | succ n ih =>
    intro xs hxs ys
    cases xs with
    | nil => exact linkify_split_base hb ys
    | cons c cs =>
      have happ := @matchUrl_append (c :: cs) ys b hb
      have happ1 := @matchUrl_append (c :: cs) [] b hb
      cases hmu : matchUrl (c :: cs) with
      | none =>
        have hml : matchUrl (c :: (cs ++ b :: ys)) = none := by
          rw [← List.cons_append, happ, hmu]
          rfl
        have hml2 : matchUrl (c :: (cs ++ [b])) = none := by
          rw [← List.cons_append, happ1, hmu]
          rfl
        show linkifyAux (c :: (cs ++ b :: ys)) = linkifyAux (c :: (cs ++ [b])) ++ linkifyAux ys
        rw [linkifyAux_cons_none hml, linkifyAux_cons_none hml2,
          ih cs (by simpa using Nat.le_of_succ_le_succ hxs) ys]
        rfl
      | some p =>
        obtain ⟨u, r⟩ := p
        have hml : matchUrl (c :: (cs ++ b :: ys)) = some (u, r ++ b :: ys) := by
          rw [← List.cons_append, happ, hmu]
          rfl
        have hml2 : matchUrl (c :: (cs ++ [b])) = some (u, r ++ [b]) := by
          rw [← List.cons_append, happ1, hmu]
          rfl
        have hrn : r.length ≤ n := by
          have := matchUrl_rest_lt hmu
          simp at this hxs
          omega
        show linkifyAux (c :: (cs ++ b :: ys)) = linkifyAux (c :: (cs ++ [b])) ++ linkifyAux ys
        rw [linkifyAux_cons_some hml, linkifyAux_cons_some hml2, ih r hrn ys,
          List.append_assoc]

theorem matchUrl_some_inv {l u r : List Char} (h : matchUrl l = some (u, r)) :
    u ≠ [] ∧ '\n' ∉ u := by
  unfold matchUrl at h
  split at h
  · split at h
    · exact absurd h (by simp)
    · simp only [Option.some.injEq, Prod.mk.injEq] at h
      obtain ⟨hu, _⟩ := h
      subst hu
      refine ⟨?_, ?_⟩
      · have hs : schemeHttps ≠ [] := by decide
        exact fun hnil => hs (List.append_eq_nil.mp hnil).1
      · intro hmem
        rcases List.mem_append.mp hmem with hm | hm
        · exact absurd hm (by decide)
        · exact absurd (List.mem_takeWhile_imp hm) (by decide)
  · split at h
    · split at h
      · exact absurd h (by simp)
      · simp only [Option.some.injEq, Prod.mk.injEq] at h
        obtain ⟨hu, _⟩ := h
        subst hu
        refine ⟨?_, ?_⟩
        · have hs : schemeHttp ≠ [] := by decide
          exact fun hnil => hs (List.append_eq_nil.mp hnil).1
        · intro hmem
          rcases List.mem_append.mp hmem with hm | hm
          · exact absurd hm (by decide)
          · exact absurd (List.mem_takeWhile_imp hm) (by decide)
    · exact absurd h (by simp)

theorem newlineToBr_of_no_newline {l : List Char} (h : '\n' ∉ l) :
    newlineToBr l = l := by
  induction l with
  | nil => rfl
  | cons c t ih =>
    have hc : ¬ c = '\n' := fun he => h (by simp [he])
    show (if c = '\n' then "<br>".data else [c]) ++ newlineToBr t = c :: t
    rw [if_neg hc, ih (fun hm => h (by simp [hm]))]
    rfl

theorem linkify_url_append (url post : List Char)
    (hurl : matchUrl url = some (url, []))
    (hpost : post = [] ∨ ∃ b t, post = b :: t ∧ legalUrlChar b = false) :
    linkifyAux (url ++ post) = anchorChars url ++ linkifyAux post := by
  have hne : url ≠ [] := (matchUrl_some_inv hurl).1
  have hm : matchUrl (url ++ post) = some (url, post) := by
    rcases hpost with rfl | ⟨b, t, rfl, hb⟩
    · simpa using hurl
    · rw [matchUrl_append hb, hurl]
      rfl
  obtain ⟨c, cs, rfl⟩ := List.exists_cons_of_ne_nil hne
  exact linkifyAux_cons_some hm

/-- C8: any URL occurrence in a rendered reply — a leftmost maximal match
of the pattern `http://` or `https://` followed by at least one
non-whitespace, non-`<` character (ensured here by the boundary
hypotheses on `pre` and `post`) — is replaced in the rendered output by
an anchor element whose href is that URL and whose link text is
`[Source]` (with the leading space the source's replacement emits), both
in `displayContent` and in the transcript entry `appendMessageToChat`
renders. -/
theorem c8_reply_urls_rewritten (pre url post : List Char)
    (hpre : pre = [] ∨ ∃ pr b, pre = pr ++ [b] ∧ legalUrlChar b = false)
    (hprenl : '\n' ∉ pre)
    (hurl : matchUrl url = some (url, []))
    (hpost : post = [] ∨ ∃ b t, post = b :: t ∧ legalUrlChar b = false)
    (hpostnl : '\n' ∉ post) :
    displayContent ⟨pre ++ url ++ post⟩
      = ⟨linkifyAux pre ++ anchorChars url ++ linkifyAux post⟩
    ∧ ∀ (t : List TranscriptEntry) (sender : String),
        appendMessageToChat sender ⟨pre ++ url ++ post⟩ false t
          = t ++ [⟨sender, ⟨linkifyAux pre ++ anchorChars url ++ linkifyAux post⟩, false⟩] := by
  have hnl : '\n' ∉ url := (matchUrl_some_inv hurl).2
  have hmain : displayContent ⟨pre ++ url ++ post⟩
      = ⟨linkifyAux pre ++ anchorChars url ++ linkifyAux post⟩ := by
    unfold displayContent
    apply congrArg String.mk
    show linkifyAux (newlineToBr (pre ++ url ++ post)) = _
    rw [newlineToBr_of_no_newline (by
      intro hm
      rcases List.mem_append.mp hm with hm1 | hm2
      · rcases List.mem_append.mp hm1 with h1 | h2
        · exact hprenl h1
        · exact hnl h2
      · exact hpostnl hm2)]
    rcases hpre with rfl | ⟨pr, b, rfl, hb⟩
    · rw [List.nil_append, linkify_url_append url post hurl hpost]
      rfl
    · have hassoc : (pr ++ [b]) ++ url ++ post = pr ++ (b :: (url ++ post)) := by simp
      rw [hassoc, linkify_split hb pr.length pr (Nat.le_refl _) (url ++ post),
        linkify_url_append url post hurl hpost, ← List.append_assoc]
  exact ⟨hmain, fun t sender => by
    unfold appendMessageToChat
    rw [hmain]⟩

theorem c8_reply_urls_rewritten_witness :
    displayContent ⟨"See ".data ++ "https://example.com/study".data ++ " for info".data⟩
      = ⟨linkifyAux "See ".data ++ anchorChars "https://example.com/study".data
          ++ linkifyAux " for info".data⟩
    ∧ ∀ (t : List TranscriptEntry) (sender : String),
        appendMessageToChat sender
            ⟨"See ".data ++ "https://example.com/study".data ++ " for info".data⟩ false t
          = t ++ [⟨sender,
              ⟨linkifyAux "See ".data ++ anchorChars "https://example.com/study".data
                ++ linkifyAux " for info".data⟩, false⟩] :=
  c8_reply_urls_rewritten "See ".data "https://example.com/study".data " for info".data
    (Or.inr ⟨"See".data, ' ', by decide, by decide⟩) (by decide)
    (by decide)
    (Or.inr ⟨' ', "for info".data, by decide, by decide⟩) (by decide)

end RoutineBuilder
